import Mathlib

/-!
Verification of the Albatross validator core (reward pot, block assembler,
validator orchestrator, PBFT commit handling, macro-block verification)
against its natural-language specification.  The Rust sources are embedded
shallowly: machine integers become `Nat` with explicit `2 ^ 64` bounds where
the code checks them, fallible code returns `Except`, and the two-key
persistent reward store becomes an explicit state record.
-/

namespace Albatross

/-- `u64::MAX + 1`; `Coin` and the stored pot values are 64-bit. -/
def u64Bound : Nat := 2 ^ 64

/-- Modelled from the spec: a blockchain transaction (the `transaction` crate
is not part of the embedded sources).  Only the fee and the canonical
serialized size are consumed by the embedded code. -/
structure Transaction where
  fee : Nat
  size : Nat
deriving DecidableEq, Repr

/-- A pending fork proof.  Its contents are opaque to the reward pot, which
only counts them. -/
structure ForkProof where
  dummy : Nat := 0
deriving DecidableEq, Repr

/-- Modelled from the spec: `MicroHeader {version, block_number, view_number,
parent_hash, extrinsics_root, state_root, seed, timestamp}` (the micro block
definitions live outside the embedded sources).  Hashes, seeds and signatures
are abstracted to `Nat`. -/
structure MicroHeader where
  version : Nat
  block_number : Nat
  view_number : Nat
  parent_hash : Nat
  extrinsics_root : Nat
  state_root : Nat
  seed : Nat
  timestamp : Nat
deriving DecidableEq, Repr

/-- Modelled from the spec: `MicroBody {fork_proofs, extra_data, transactions}`. -/
structure MicroExtrinsics where
  fork_proofs : List ForkProof
  extra_data : List Nat
  transactions : List Transaction
deriving DecidableEq, Repr

/-- Modelled from the spec: the micro justification
`{signature, view_change_proof?}`. -/
structure MicroJustification where
  signature : Nat
  view_change_proof : Option Nat
deriving DecidableEq, Repr

/-- Modelled from the spec: `MicroBlock = {header, body, justification}`,
with the body optional exactly as in the source (`extrinsics: Option<…>`). -/
structure MicroBlock where
  header : MicroHeader
  extrinsics : Option MicroExtrinsics
  justification : MicroJustification
deriving DecidableEq, Repr

/-- A slot entry, as consumed by `MacroBlock::try_into::<Slots>`. -/
structure Slot where
  public_key : Nat
  staker_address : Nat
  reward_address_opt : Option Nat
deriving DecidableEq, Repr

/-- Modelled from the spec: `Slots` is the ordered slot list plus the
per-epoch `slash_fine : Coin`. -/
structure Slots where
  slots : List Slot
  slash_fine : Nat
deriving DecidableEq, Repr

/-! ## Reward pot (`blockchain-albatross/src/reward_registry/reward_pot.rs`)

The `RewardPot` database has the two keys `curr` and `prev`; a missing key
reads as `0` (`unwrap_or(0)`), so the store is modelled as two `Nat` fields.
-/

/-- The two persisted values of the `RewardPot` database
(keys `curr` and `prev`, absent keys reading as zero). -/
structure RewardPotState where
  curr : Nat
  prev : Nat
deriving DecidableEq, Repr

/-- The failure modes of the reward-pot arithmetic.  Following the spec's
error taxonomy ("Overflow (arithmetic on `Coin`) → fatal"), every fatal
`Coin` range violation is classified as `overflow`; the unconditional
extrinsics unwrap and the plain `u32` view subtraction keep their own
constructors. -/
inductive RewardError where
  | missingExtrinsics
  | viewUnderflow
  | overflow
deriving DecidableEq, Repr

/-- Modelled from the spec: `Coin` addition is checked; leaving the 64-bit
range is a fatal error. -/
def coinAdd (a b : Nat) : Except RewardError Nat :=
  if a + b < u64Bound then .ok (a + b) else .error .overflow

/-- Modelled from the spec: `Coin` is non-negative, so a subtraction below
zero is a fatal `Coin` arithmetic error (spec taxonomy: `Overflow`). -/
def coinSub (a b : Nat) : Except RewardError Nat :=
  if b ≤ a then .ok (a - b) else .error .overflow

/-- `u64::checked_mul`, whose `None` branch the source declares fatal
(`unreachable!` / `panic!("Slash fine overflowed")`). -/
def checkedMul (a b : Nat) : Except RewardError Nat :=
  if a * b < u64Bound then .ok (a * b) else .error .overflow

/-- The `for transaction in extrinsics.transactions` fee loop:
`reward += transaction.fee` with checked `Coin` addition. -/
def addFees (acc : Nat) : List Transaction → Except RewardError Nat
  | [] => .ok acc
  | tx :: rest => do
      let acc ← coinAdd acc tx.fee
      addFees acc rest

/-- `RewardPot::reward_for_micro_block`.  `brAt` stands for
`policy::block_reward_at` (a pure compile-time policy function, taken as a
parameter because the `policy` module is outside the embedded sources). -/
def reward_for_micro_block (brAt : Nat → Nat) (block : MicroBlock)
    (slots : Slots) (prev_view_number : Nat) : Except RewardError Nat := do
  let reward := brAt block.header.block_number
  match block.extrinsics with
  | none => .error .missingExtrinsics
  | some extrinsics => do
      let reward ← addFees reward extrinsics.transactions
      let forks ← checkedMul slots.slash_fine extrinsics.fork_proofs.length
      let reward ← coinAdd reward forks
      if prev_view_number ≤ block.header.view_number then do
        let views ← checkedMul slots.slash_fine
          (block.header.view_number - prev_view_number)
        coinAdd reward views
      else
        .error .viewUnderflow

/-- `RewardPot::commit_micro_block`: add the block's reward to the stored
`curr` value; `prev` is not touched. -/
def commit_micro_block (brAt : Nat → Nat) (block : MicroBlock) (slots : Slots)
    (prev_view_number : Nat) (st : RewardPotState) :
    Except RewardError RewardPotState := do
  let reward ← reward_for_micro_block brAt block slots prev_view_number
  let reward ← coinAdd reward st.curr
  .ok { st with curr := reward }

/-- `RewardPot::revert_micro_block`: subtract the block's reward from the
stored `curr` value. -/
def revert_micro_block (brAt : Nat → Nat) (block : MicroBlock) (slots : Slots)
    (prev_view_number : Nat) (st : RewardPotState) :
    Except RewardError RewardPotState := do
  let r ← reward_for_micro_block brAt block slots prev_view_number
  let reward ← coinSub st.curr r
  .ok { st with curr := reward }

/-- Sum of the fees of a transaction list (specification-side formula). -/
def sumFees (txs : List Transaction) : Nat :=
  (txs.map Transaction.fee).sum

/-! ## Macro blocks (`primitives/block-albatross/src/macro_block.rs`) -/

/-- Modelled from the spec: `GroupedList<T> = [(count, T), …]`, the run-length
encoded validator list (the `collections` crate is outside the embedded
sources). -/
structure CompressedList (α : Type) where
  groups : List (Nat × α)
deriving DecidableEq, Repr

/-- Total length of a grouped list: the sum of the run counts
(`Σcount == SLOTS` in a well-formed list). -/
def CompressedList.len {α : Type} (l : CompressedList α) : Nat :=
  (l.groups.map Prod.fst).sum

/-- Modelled from the spec: a grouped list verifies when it has no illegal
zero-count entries. -/
def CompressedList.verify {α : Type} (l : CompressedList α) : Bool :=
  l.groups.all (fun g => decide (0 < g.fst))

/-- A compressed BLS public key, abstracted to its numeric identity. -/
abbrev LazyPublicKey := Nat

/-- `SlotAddresses {staker_address, reward_address}`. -/
structure SlotAddresses where
  staker_address : Nat
  reward_address : Nat
deriving DecidableEq, Repr

/-- `MacroHeader`, with hashes, seeds and signatures abstracted to `Nat`. -/
structure MacroHeader where
  version : Nat
  validators : CompressedList LazyPublicKey
  block_number : Nat
  view_number : Nat
  parent_macro_hash : Nat
  seed : Nat
  parent_hash : Nat
  state_root : Nat
  extrinsics_root : Nat
  transactions_root : Nat
  timestamp : Nat
deriving DecidableEq, Repr

/-- `MacroExtrinsics {slot_addresses, slash_fine, slashed_set}`; the
`BitSet` of slashed slots is abstracted to the list of set indices. -/
structure MacroExtrinsics where
  slot_addresses : CompressedList SlotAddresses
  slash_fine : Nat
  slashed_set : List Nat
deriving DecidableEq, Repr

/-- Modelled from the spec: `PbftProof = {prepare, commit}`, two threshold
aggregated signatures, abstracted to their numeric identities. -/
structure PbftProof where
  prepare : Nat
  commit : Nat
deriving DecidableEq, Repr

/-- `MacroBlock = {header, justification: Option<PbftProof>,
extrinsics: Option<MacroExtrinsics>}`. -/
structure MacroBlock where
  header : MacroHeader
  justification : Option PbftProof
  extrinsics : Option MacroExtrinsics
deriving DecidableEq, Repr

/-- `RewardPot::reward_for_macro_block`: block reward plus the view-change
slashes (`slash_fine * (view_number - prev_view_number)`, with the plain
`u32` subtraction guarded by its underflow condition). -/
def reward_for_macro_block (brAt : Nat → Nat) (block : MacroBlock)
    (slots : Slots) (prev_view_number : Nat) : Except RewardError Nat := do
  let reward := brAt block.header.block_number
  if prev_view_number ≤ block.header.view_number then do
    let views ← checkedMul slots.slash_fine
      (block.header.view_number - prev_view_number)
    coinAdd reward views
  else
    .error .viewUnderflow

/-- `RewardPot::commit_macro_block`: the macro block's own reward is added to
the stored `curr` value, the sum is moved to `prev`, and `curr` is zeroed. -/
def commit_macro_block (brAt : Nat → Nat) (block : MacroBlock) (slots : Slots)
    (prev_view_number : Nat) (st : RewardPotState) :
    Except RewardError RewardPotState := do
  let current_reward ← reward_for_macro_block brAt block slots prev_view_number
  let current_reward ← coinAdd current_reward st.curr
  .ok { curr := 0, prev := current_reward }

/-! ## Reward pot lemmas -/

theorem coinAdd_ok {a b r : Nat} (h : coinAdd a b = .ok r) :
    r = a + b ∧ a + b < u64Bound := by
  unfold coinAdd at h
  split at h
  · exact ⟨(Except.ok.injEq _ _ ▸ h.symm : r = a + b), by assumption⟩
  · exact absurd h (by simp)

theorem coinAdd_error {a b : Nat} {e : RewardError} (h : coinAdd a b = .error e) :
    e = .overflow := by
  unfold coinAdd at h
  split at h
  · exact absurd h (by simp)
  · exact (Except.error.injEq _ _ ▸ h.symm : e = .overflow)

theorem coinSub_ok {a b r : Nat} (h : coinSub a b = .ok r) :
    r = a - b ∧ b ≤ a := by
  unfold coinSub at h
  split at h
  · exact ⟨(Except.ok.injEq _ _ ▸ h.symm : r = a - b), by assumption⟩
  · exact absurd h (by simp)

theorem coinSub_error {a b : Nat} {e : RewardError} (h : coinSub a b = .error e) :
    e = .overflow := by
  unfold coinSub at h
  split at h
  · exact absurd h (by simp)
  · exact (Except.error.injEq _ _ ▸ h.symm : e = .overflow)

theorem checkedMul_ok {a b r : Nat} (h : checkedMul a b = .ok r) :
    r = a * b ∧ a * b < u64Bound := by
  unfold checkedMul at h
  split at h
  · exact ⟨(Except.ok.injEq _ _ ▸ h.symm : r = a * b), by assumption⟩
  · exact absurd h (by simp)

theorem checkedMul_error {a b : Nat} {e : RewardError}
    (h : checkedMul a b = .error e) : e = .overflow := by
  unfold checkedMul at h
  split at h
  · exact absurd h (by simp)
  · exact (Except.error.injEq _ _ ▸ h.symm : e = .overflow)

theorem addFees_ok : ∀ {txs : List Transaction} {acc r : Nat},
    addFees acc txs = .ok r → r = acc + sumFees txs := by
  intro txs
  induction txs with
  | nil =>
      intro acc r h
      simp only [addFees] at h
      cases h
      simp [sumFees]
  | cons tx rest ih =>
      intro acc r h
      simp only [addFees, bind, Except.bind] at h
      cases hc : coinAdd acc tx.fee with
      | error e => rw [hc] at h; exact absurd h (by simp)
      | ok a =>
          rw [hc] at h
          have ha := (coinAdd_ok hc).1
          have := ih h
          subst ha this
          simp [sumFees]
          omega

theorem addFees_error : ∀ {txs : List Transaction} {acc : Nat} {e : RewardError},
    addFees acc txs = .error e → e = .overflow := by
  intro txs
  induction txs with
  | nil =>
      intro acc e h
      simp only [addFees] at h
      exact absurd h (by simp)
  | cons tx rest ih =>
      intro acc e h
      simp only [addFees, bind, Except.bind] at h
      cases hc : coinAdd acc tx.fee with
      | error e1 =>
          rw [hc] at h
          cases h
          exact coinAdd_error hc
      | ok a =>
          rw [hc] at h
          exact ih h

/-- The value computed by `reward_for_micro_block` when it succeeds:
block reward, plus transaction fees, plus the fork-proof and view-change
slash fines.  Success forces `prev_view_number ≤ view_number`. -/
theorem reward_for_micro_block_ok {brAt : Nat → Nat} {b : MicroBlock}
    {slots : Slots} {pv r : Nat} {ext : MicroExtrinsics}
    (hext : b.extrinsics = some ext)
    (h : reward_for_micro_block brAt b slots pv = .ok r) :
    pv ≤ b.header.view_number ∧
    r = brAt b.header.block_number + sumFees ext.transactions
        + slots.slash_fine * ext.fork_proofs.length
        + slots.slash_fine * (b.header.view_number - pv) := by
  unfold reward_for_micro_block at h
  rw [hext] at h
  simp only [bind, Except.bind] at h
  cases h1 : addFees (brAt b.header.block_number) ext.transactions with
  | error e => rw [h1] at h; exact absurd h (by simp)
  | ok r1 =>
      rw [h1] at h
      dsimp only at h
      cases h2 : checkedMul slots.slash_fine ext.fork_proofs.length with
      | error e => rw [h2] at h; exact absurd h (by simp)
      | ok m1 =>
          rw [h2] at h
          dsimp only at h
          cases h3 : coinAdd r1 m1 with
          | error e => rw [h3] at h; exact absurd h (by simp)
          | ok r2 =>
              rw [h3] at h
              dsimp only at h
              split at h
              · rename_i hpv
                cases h4 : checkedMul slots.slash_fine
                    (b.header.view_number - pv) with
                | error e => rw [h4] at h; exact absurd h (by simp)
                | ok m2 =>
                    rw [h4] at h
                    refine ⟨hpv, ?_⟩
                    have e1 := addFees_ok h1
                    have e2 := (checkedMul_ok h2).1
                    have e3 := (coinAdd_ok h3).1
                    have e4 := (checkedMul_ok h4).1
                    have e5 := (coinAdd_ok h).1
                    omega
              · exact absurd h (by simp)

/-- When `reward_for_micro_block` fails on a block whose extrinsics are
present and whose view number is at least `prev_view_number`, the failure is
an overflow. -/
theorem reward_for_micro_block_error {brAt : Nat → Nat} {b : MicroBlock}
    {slots : Slots} {pv : Nat} {ext : MicroExtrinsics} {e : RewardError}
    (hext : b.extrinsics = some ext) (hpv : pv ≤ b.header.view_number)
    (h : reward_for_micro_block brAt b slots pv = .error e) :
    e = .overflow := by
  unfold reward_for_micro_block at h
  rw [hext] at h
  simp only [bind, Except.bind] at h
  cases h1 : addFees (brAt b.header.block_number) ext.transactions with
  | error e1 =>
      rw [h1] at h
      cases h
      exact addFees_error h1
  | ok r1 =>
      rw [h1] at h
      dsimp only at h
      cases h2 : checkedMul slots.slash_fine ext.fork_proofs.length with
      | error e2 =>
          rw [h2] at h
          cases h
          exact checkedMul_error h2
      | ok m1 =>
          rw [h2] at h
          dsimp only at h
          cases h3 : coinAdd r1 m1 with
          | error e3 =>
              rw [h3] at h
              cases h
              exact coinAdd_error h3
          | ok r2 =>
              rw [h3] at h
              dsimp only at h
              split at h
              · cases h4 : checkedMul slots.slash_fine
                    (b.header.view_number - pv) with
                | error e4 =>
                    rw [h4] at h
                    cases h
                    exact checkedMul_error h4
                | ok m2 =>
                    rw [h4] at h
                    exact coinAdd_error h
              · omega

/-- The value computed by `reward_for_macro_block` when it succeeds.
Success forces `prev_view_number ≤ view_number`. -/
theorem reward_for_macro_block_ok {brAt : Nat → Nat} {b : MacroBlock}
    {slots : Slots} {pv r : Nat}
    (h : reward_for_macro_block brAt b slots pv = .ok r) :
    pv ≤ b.header.view_number ∧
    r = brAt b.header.block_number
        + slots.slash_fine * (b.header.view_number - pv) := by
  unfold reward_for_macro_block at h
  simp only [bind, Except.bind] at h
  split at h
  · rename_i hpv
    cases hm : checkedMul slots.slash_fine (b.header.view_number - pv) with
    | error e => rw [hm] at h; exact absurd h (by simp)
    | ok m =>
        rw [hm] at h
        have e1 := (checkedMul_ok hm).1
        have e2 := (coinAdd_ok h).1
        exact ⟨hpv, by omega⟩
  · exact absurd h (by simp)

/-- Under the unwrap-and-underflow precondition, a failing
`commit_micro_block` fails with an overflow. -/
theorem commit_micro_block_error {brAt : Nat → Nat} {b : MicroBlock}
    {slots : Slots} {pv : Nat} {st : RewardPotState} {ext : MicroExtrinsics}
    {e : RewardError}
    (hext : b.extrinsics = some ext) (hpv : pv ≤ b.header.view_number)
    (h : commit_micro_block brAt b slots pv st = .error e) : e = .overflow := by
  unfold commit_micro_block at h
  simp only [bind, Except.bind] at h
  cases hr : reward_for_micro_block brAt b slots pv with
  | error e1 =>
      rw [hr] at h
      cases h
      exact reward_for_micro_block_error hext hpv hr
  | ok r =>
      rw [hr] at h
      dsimp only at h
      cases hc : coinAdd r st.curr with
      | error e2 =>
          rw [hc] at h
          cases h
          exact coinAdd_error hc
      | ok c => rw [hc] at h; exact absurd h (by simp)

/-- Under the unwrap-and-underflow precondition, a failing
`revert_micro_block` fails with an overflow (the spec's taxonomy classifies
every fatal `Coin` range violation as `Overflow`). -/
theorem revert_micro_block_error {brAt : Nat → Nat} {b : MicroBlock}
    {slots : Slots} {pv : Nat} {st : RewardPotState} {ext : MicroExtrinsics}
    {e : RewardError}
    (hext : b.extrinsics = some ext) (hpv : pv ≤ b.header.view_number)
    (h : revert_micro_block brAt b slots pv st = .error e) : e = .overflow := by
  unfold revert_micro_block at h
  simp only [bind, Except.bind] at h
  cases hr : reward_for_micro_block brAt b slots pv with
  | error e1 =>
      rw [hr] at h
      cases h
      exact reward_for_micro_block_error hext hpv hr
  | ok r =>
      rw [hr] at h
      dsimp only at h
      cases hc : coinSub st.curr r with
      | error e2 =>
          rw [hc] at h
          cases h
          exact coinSub_error hc
      | ok c => rw [hc] at h; exact absurd h (by simp)

/-! ## Claim theorems: reward pot -/

/-- C1: committing a micro block whose extrinsics are present, with
`prev_view ≤ view_number`, increases the stored `curr` pot by exactly
`block_reward_at(n) + Σ fees + slash_fine · (|fork_proofs| +
(view_number - prev_view))`, and leaves the `prev` pot unchanged. -/
theorem commit_micro_block_adds_reward (brAt : Nat → Nat) (b : MicroBlock)
    (slots : Slots) (pv : Nat) (st st' : RewardPotState) (ext : MicroExtrinsics)
    (hext : b.extrinsics = some ext) (hpv : pv ≤ b.header.view_number)
    (hok : commit_micro_block brAt b slots pv st = .ok st') :
    st'.curr = st.curr + (brAt b.header.block_number + sumFees ext.transactions
      + slots.slash_fine * (ext.fork_proofs.length + (b.header.view_number - pv)))
    ∧ st'.prev = st.prev := by
  unfold commit_micro_block at hok
  simp only [bind, Except.bind] at hok
  cases hr : reward_for_micro_block brAt b slots pv with
  | error e => rw [hr] at hok; exact absurd hok (by simp)
  | ok r =>
      rw [hr] at hok
      dsimp only at hok
      cases hc : coinAdd r st.curr with
      | error e => rw [hc] at hok; exact absurd hok (by simp)
      | ok c =>
          rw [hc] at hok
          cases hok
          have hv := (reward_for_micro_block_ok hext hr).2
          have hcv := (coinAdd_ok hc).1
          refine ⟨?_, rfl⟩
          show c = st.curr + (brAt b.header.block_number + sumFees ext.transactions
            + slots.slash_fine * (ext.fork_proofs.length
                + (b.header.view_number - pv)))
          rw [Nat.mul_add]
          omega

/-- C2: committing a macro block with `prev_view ≤ view_number` sets the
stored `prev` pot to the old `curr` pot plus the macro block's own reward
`block_reward_at(n) + slash_fine · (view_number - prev_view)`, and zeroes
the `curr` pot. -/
theorem commit_macro_block_moves_pot (brAt : Nat → Nat) (b : MacroBlock)
    (slots : Slots) (pv : Nat) (st st' : RewardPotState)
    (hpv : pv ≤ b.header.view_number)
    (hok : commit_macro_block brAt b slots pv st = .ok st') :
    st'.prev = st.curr + (brAt b.header.block_number
      + slots.slash_fine * (b.header.view_number - pv))
    ∧ st'.curr = 0 := by
  unfold commit_macro_block at hok
  simp only [bind, Except.bind] at hok
  cases hr : reward_for_macro_block brAt b slots pv with
  | error e => rw [hr] at hok; exact absurd hok (by simp)
  | ok r =>
      rw [hr] at hok
      dsimp only at hok
      cases hc : coinAdd r st.curr with
      | error e => rw [hc] at hok; exact absurd hok (by simp)
      | ok c =>
          rw [hc] at hok
          cases hok
          have hv := (reward_for_macro_block_ok hr).2
          have hcv := (coinAdd_ok hc).1
          refine ⟨?_, rfl⟩
          show c = st.curr + (brAt b.header.block_number
            + slots.slash_fine * (b.header.view_number - pv))
          omega

/-- C3: `commit_micro_block` followed by `revert_micro_block` on the same
micro block restores the `curr` pot (and the whole stored state) exactly. -/
theorem commit_then_revert_micro_restores (brAt : Nat → Nat) (b : MicroBlock)
    (slots : Slots) (pv : Nat) (st st' : RewardPotState)
    (hok : commit_micro_block brAt b slots pv st = .ok st') :
    revert_micro_block brAt b slots pv st' = .ok st := by
  unfold commit_micro_block at hok
  simp only [bind, Except.bind] at hok
  cases hr : reward_for_micro_block brAt b slots pv with
  | error e => rw [hr] at hok; exact absurd hok (by simp)
  | ok r =>
      rw [hr] at hok
      dsimp only at hok
      cases hc : coinAdd r st.curr with
      | error e => rw [hc] at hok; exact absurd hok (by simp)
      | ok c =>
          rw [hc] at hok
          cases hok
          have hcv := (coinAdd_ok hc).1
          unfold revert_micro_block
          simp only [bind, Except.bind]
          rw [hr]
          dsimp only
          have hsub : coinSub ({ st with curr := c } : RewardPotState).curr r
              = .ok st.curr := by
            unfold coinSub
            have : r ≤ c := by omega
            rw [if_pos this]
            have : c - r = st.curr := by omega
            rw [this]
          rw [hsub]

/-- C10: with the extrinsics present and `prev_view ≤ view_number`,
`commit_micro_block` and `revert_micro_block` never fail through the
unconditional extrinsics unwrap or the plain `u32` view subtraction — the
only remaining failure branches are the fatal `Coin`/`u64` overflow checks;
dropping the extrinsics makes the commit fail on the unwrap, and a
`prev_view` above the view number never lets it succeed. -/
theorem micro_pot_ops_fail_only_by_overflow (brAt : Nat → Nat) (b : MicroBlock)
    (slots : Slots) (pv : Nat) (st : RewardPotState) (ext : MicroExtrinsics)
    (hext : b.extrinsics = some ext) (hpv : pv ≤ b.header.view_number) :
    commit_micro_block brAt b slots pv st ≠ .error .missingExtrinsics
    ∧ commit_micro_block brAt b slots pv st ≠ .error .viewUnderflow
    ∧ revert_micro_block brAt b slots pv st ≠ .error .missingExtrinsics
    ∧ revert_micro_block brAt b slots pv st ≠ .error .viewUnderflow
    ∧ commit_micro_block brAt { b with extrinsics := none } slots pv st
        = .error .missingExtrinsics
    ∧ (commit_micro_block brAt b slots (b.header.view_number + 1) st).isOk
        = false := by
  refine ⟨?_, ?_, ?_, ?_, ?_, ?_⟩
  · intro h
    cases commit_micro_block_error hext hpv h
  · intro h
    cases commit_micro_block_error hext hpv h
  · intro h
    cases revert_micro_block_error hext hpv h
  · intro h
    cases revert_micro_block_error hext hpv h
  · simp [commit_micro_block, reward_for_micro_block, bind, Except.bind]
  · cases hr : reward_for_micro_block brAt b slots (b.header.view_number + 1) with
    | error e =>
        simp only [commit_micro_block, bind, Except.bind, hr]
        rfl
    | ok r =>
        have := (reward_for_micro_block_ok hext hr).1
        omega

/-! ## Concrete witness data -/

/-- A concrete stand-in for `policy::block_reward_at`. -/
def brW : Nat → Nat := fun _ => 5

/-- Concrete micro extrinsics: one fork proof, one transaction with fee 2. -/
def extW : MicroExtrinsics :=
  { fork_proofs := [{}], extra_data := [], transactions := [{ fee := 2, size := 1 }] }

/-- Concrete micro block at height 1, view 1. -/
def bMicroW : MicroBlock :=
  { header := { version := 1, block_number := 1, view_number := 1,
                parent_hash := 0, extrinsics_root := 0, state_root := 0,
                seed := 0, timestamp := 0 },
    extrinsics := some extW,
    justification := { signature := 0, view_change_proof := none } }

/-- Concrete slots with slash fine 3. -/
def slotsW : Slots := { slots := [], slash_fine := 3 }

/-- Concrete starting pot. -/
def stW : RewardPotState := ⟨7, 9⟩

/-- Concrete macro block at height 2, view 2. -/
def bMacroW : MacroBlock :=
  { header := { version := 1, validators := ⟨[(1, 7)]⟩, block_number := 2,
                view_number := 2, parent_macro_hash := 0, seed := 0,
                parent_hash := 0, state_root := 0, extrinsics_root := 0,
                transactions_root := 0, timestamp := 0 },
    justification := some ⟨0, 0⟩,
    extrinsics := none }

/-- Witness for C1: the micro reward here is `5 + 2 + 3·(1 + 1) = 13`, so the
pot moves from `(7, 9)` to `(20, 9)`. -/
theorem commit_micro_block_adds_reward_witness :
    (⟨20, 9⟩ : RewardPotState).curr = stW.curr + (brW bMicroW.header.block_number
      + sumFees extW.transactions
      + slotsW.slash_fine * (extW.fork_proofs.length
          + (bMicroW.header.view_number - 0)))
    ∧ (⟨20, 9⟩ : RewardPotState).prev = stW.prev :=
  commit_micro_block_adds_reward brW bMicroW slotsW 0 stW ⟨20, 9⟩ extW
    (by rfl) (by decide) (by rfl)

/-- Witness for C2: the macro reward here is `5 + 3·(2 − 1) = 8`, so the pot
moves from `(7, 9)` to `(0, 15)`. -/
theorem commit_macro_block_moves_pot_witness :
    (⟨0, 15⟩ : RewardPotState).prev = stW.curr
      + (brW bMacroW.header.block_number
        + slotsW.slash_fine * (bMacroW.header.view_number - 1))
    ∧ (⟨0, 15⟩ : RewardPotState).curr = 0 :=
  commit_macro_block_moves_pot brW bMacroW slotsW 1 stW ⟨0, 15⟩
    (by decide) (by rfl)

/-- Witness for C3: reverting the committed concrete block restores `(7, 9)`. -/
theorem commit_then_revert_micro_restores_witness :
    revert_micro_block brW bMicroW slotsW 0 ⟨20, 9⟩ = .ok stW :=
  commit_then_revert_micro_restores brW bMicroW slotsW 0 stW ⟨20, 9⟩ (by rfl)

/-- Witness for C10 at the concrete micro block. -/
theorem micro_pot_ops_fail_only_by_overflow_witness :
    commit_micro_block brW bMicroW slotsW 0 stW ≠ .error .missingExtrinsics
    ∧ commit_micro_block brW bMicroW slotsW 0 stW ≠ .error .viewUnderflow
    ∧ revert_micro_block brW bMicroW slotsW 0 stW ≠ .error .missingExtrinsics
    ∧ revert_micro_block brW bMicroW slotsW 0 stW ≠ .error .viewUnderflow
    ∧ commit_micro_block brW { bMicroW with extrinsics := none } slotsW 0 stW
        = .error .missingExtrinsics
    ∧ (commit_micro_block brW bMicroW slotsW
        (bMicroW.header.view_number + 1) stW).isOk = false :=
  micro_pot_ops_fail_only_by_overflow brW bMicroW slotsW 0 stW extW
    (by rfl) (by decide)

/-! ## Block assembler (`block-production-albatross/src/lib.rs`)

`next_micro_extrinsics` pulls at most `max_size` serialized bytes of
transactions from the mempool, then trims from the tail while its running
`size` variable exceeds `max_size`.  The subtraction in the source is
`size -= transactions.pop().serialized_size()`: `Vec::pop` returns an
`Option<Transaction>`, so the subtracted quantity is the serialized size of
the `Option`, not of the transaction itself.
-/

/-- Modelled from the spec: the canonical self-describing binary encoding of
an optional value carries a one-byte presence tag before the payload, so
`Option<Transaction>` serializes one byte larger than the transaction
(`None` serializes as the single tag byte). -/
def optionTxSerializedSize : Option Transaction → Nat
  | none => 1
  | some tx => 1 + tx.size

/-- `transactions.iter().fold(0, |size, tx| size + tx.serialized_size())`. -/
def totalTxSize (txs : List Transaction) : Nat :=
  txs.foldl (fun s tx => s + tx.size) 0

/-- The `while size > max_size { size -= transactions.pop().serialized_size() }`
loop (Nat subtraction truncates where the `usize` subtraction would be a
fatal underflow; the claims below only exercise underflow-free runs). -/
def trimLoop (txs : List Transaction) (size max_size : Nat) :
    List Transaction × Nat :=
  if max_size < size then
    trimLoop txs.dropLast (size - optionTxSerializedSize txs.getLast?) max_size
  else (txs, size)
termination_by size
decreasing_by
  have h1 : 1 ≤ optionTxSerializedSize txs.getLast? := by
    cases txs.getLast? <;> simp [optionTxSerializedSize]
  omega

/-- The transaction-trimming phase of `next_micro_extrinsics`: returns the
surviving transactions and whether receipt collection was re-run (the body
of the `if size > max_size` block). -/
def next_micro_extrinsics_txs (txs : List Transaction) (max_size : Nat) :
    List Transaction × Bool :=
  let size := totalTxSize txs
  if max_size < size then ((trimLoop txs size max_size).1, true)
  else (txs, false)

/-- The reads of the blockchain facade consumed by the micro-block
assembler: `height()`, `head().timestamp()`, `head_hash()`,
`next_view_number()`. -/
structure ChainView where
  height : Nat
  headTimestamp : Nat
  headHash : Nat
  nextViewNumber : Nat
deriving DecidableEq, Repr

/-- Modelled from the spec: the compile-time `Block::VERSION` constant. -/
def blockVersion : Nat := 1

/-- `BlockProducer::next_micro_header`: `block_number := height + 1`,
`timestamp := max(timestamp, head.timestamp + 1)` (64-bit addition), the
roots, seed and parent hash filled in from their computations. -/
def next_micro_header (chain : ChainView) (timestamp view_number : Nat)
    (extrinsics_root state_root seed : Nat) : MicroHeader :=
  { version := blockVersion,
    block_number := chain.height + 1,
    view_number := view_number,
    parent_hash := chain.headHash,
    extrinsics_root := extrinsics_root,
    state_root := state_root,
    seed := seed,
    timestamp := max timestamp ((chain.headTimestamp + 1) % u64Bound) }

/-- `BlockProducer::next_micro_block`: build the (trimmed) extrinsics, the
header over them, and sign.  The extrinsics hash, state root, seed and
signature computations are external capabilities, taken as parameters. -/
def next_micro_block (chain : ChainView) (fork_proofs : List ForkProof)
    (timestamp view_number : Nat) (extra_data : List Nat)
    (view_change_proof : Option Nat) (mempoolTxs : List Transaction)
    (max_size : Nat) (extHashFn : MicroExtrinsics → Nat)
    (state_root seed : Nat) (signFn : MicroHeader → Nat) : MicroBlock :=
  let transactions := (next_micro_extrinsics_txs mempoolTxs max_size).1
  let extrinsics : MicroExtrinsics :=
    { fork_proofs := fork_proofs, extra_data := extra_data,
      transactions := transactions }
  let header := next_micro_header chain timestamp view_number
    (extHashFn extrinsics) state_root seed
  { header := header,
    extrinsics := some extrinsics,
    justification := { signature := signFn header,
                       view_change_proof := view_change_proof } }

/-! ## Claim theorems: block assembler -/

/-- C4 (code bug): with `max_size = 10` and mempool transactions of
serialized sizes `[11, 5]`, the trim loop subtracts the `Option`-wrapped
size `1 + 5` of the popped transaction, reaches its tracked size `10` and
stops — but the surviving body still serializes to `11 > max_size`.  With
sizes `[5, 4]` (total `9 ≤ 10`) nothing is popped and receipts are not
re-collected. -/
theorem micro_body_trim_can_exceed_max_size :
    next_micro_extrinsics_txs [⟨0, 11⟩, ⟨0, 5⟩] 10 = ([⟨0, 11⟩], true)
    ∧ totalTxSize [(⟨0, 11⟩ : Transaction)] = 11
    ∧ 10 < totalTxSize [(⟨0, 11⟩ : Transaction)]
    ∧ next_micro_extrinsics_txs [⟨0, 5⟩, ⟨0, 4⟩] 10 = ([⟨0, 5⟩, ⟨0, 4⟩], false) := by
  refine ⟨?_, by simp [totalTxSize], by simp [totalTxSize], ?_⟩
  · show next_micro_extrinsics_txs [⟨0, 11⟩, ⟨0, 5⟩] 10 = ([⟨0, 11⟩], true)
    unfold next_micro_extrinsics_txs
    norm_num [totalTxSize]
    rw [trimLoop.eq_def]
    norm_num [optionTxSerializedSize]
    rw [trimLoop.eq_def]
    norm_num
  · unfold next_micro_extrinsics_txs
    simp [totalTxSize]

/-- C5: a micro block built by `next_micro_block` carries
`block_number = height + 1` and
`timestamp = max(timestamp, head.timestamp + 1)`, hence a timestamp
strictly above the parent's. -/
theorem next_micro_block_header_links (chain : ChainView)
    (fork_proofs : List ForkProof) (timestamp view_number : Nat)
    (extra_data : List Nat) (view_change_proof : Option Nat)
    (mempoolTxs : List Transaction) (max_size : Nat)
    (extHashFn : MicroExtrinsics → Nat) (state_root seed : Nat)
    (signFn : MicroHeader → Nat)
    (hts : chain.headTimestamp + 1 < u64Bound) :
    (next_micro_block chain fork_proofs timestamp view_number extra_data
      view_change_proof mempoolTxs max_size extHashFn state_root seed
      signFn).header.block_number = chain.height + 1
    ∧ (next_micro_block chain fork_proofs timestamp view_number extra_data
      view_change_proof mempoolTxs max_size extHashFn state_root seed
      signFn).header.timestamp = max timestamp (chain.headTimestamp + 1)
    ∧ chain.headTimestamp < (next_micro_block chain fork_proofs timestamp
      view_number extra_data view_change_proof mempoolTxs max_size extHashFn
      state_root seed signFn).header.timestamp := by
  unfold next_micro_block next_micro_header
  refine ⟨rfl, ?_, ?_⟩
  · dsimp only
    rw [Nat.mod_eq_of_lt hts]
  · dsimp only
    rw [Nat.mod_eq_of_lt hts]
    have := Nat.le_max_right timestamp (chain.headTimestamp + 1)
    omega

/-- Witness for C5 at a concrete chain head (height 3, timestamp 100) and
supplied timestamp 50: the produced header is at height 4 with timestamp
101 > 100. -/
theorem next_micro_block_header_links_witness :
    (next_micro_block ⟨3, 100, 0, 0⟩ [] 50 0 [] none [] 1000 (fun _ => 0)
      0 0 (fun _ => 0)).header.block_number = 3 + 1
    ∧ (next_micro_block ⟨3, 100, 0, 0⟩ [] 50 0 [] none [] 1000 (fun _ => 0)
      0 0 (fun _ => 0)).header.timestamp = max 50 (100 + 1)
    ∧ 100 < (next_micro_block ⟨3, 100, 0, 0⟩ [] 50 0 [] none [] 1000
      (fun _ => 0) 0 0 (fun _ => 0)).header.timestamp :=
  next_micro_block_header_links ⟨3, 100, 0, 0⟩ [] 50 0 [] none [] 1000
    (fun _ => 0) 0 0 (fun _ => 0) (by decide)

/-! ## `MacroBlock::verify` (`primitives/block-albatross/src/macro_block.rs`) -/

/-- The `BlockError` variants reached by `MacroBlock::verify` (the source
enum has further variants that this function never returns). -/
inductive BlockError where
  | noJustification
  | invalidValidators
deriving DecidableEq, Repr

/-- `MacroBlock::verify`: a missing justification on a non-genesis block,
then the validator list, then (if present) the extrinsics' slot addresses.
`SLOTS` is the compile-time `policy::SLOTS` constant, taken as a
parameter. -/
def MacroBlock.verify (SLOTS : Nat) (b : MacroBlock) : Except BlockError Unit :=
  if 1 ≤ b.header.block_number ∧ b.justification = none then
    .error .noJustification
  else if ¬(b.header.validators.verify = true
            ∧ b.header.validators.len = SLOTS) then
    .error .invalidValidators
  else
    match b.extrinsics with
    | some extrinsics =>
        if ¬(extrinsics.slot_addresses.verify = true
             ∧ extrinsics.slot_addresses.len = SLOTS) then
          .error .invalidValidators
        else
          .ok ()
    | none => .ok ()

/-- `!self.header.validators.verify() || self.header.validators.len() !=
policy::SLOTS`, negated. -/
def validatorsOk (SLOTS : Nat) (b : MacroBlock) : Bool :=
  b.header.validators.verify && decide (b.header.validators.len = SLOTS)

/-- The extrinsics check of `MacroBlock::verify`: vacuous when the
extrinsics are absent. -/
def extrinsicsSlotsOk (SLOTS : Nat) (b : MacroBlock) : Bool :=
  match b.extrinsics with
  | some extrinsics =>
      extrinsics.slot_addresses.verify
        && decide (extrinsics.slot_addresses.len = SLOTS)
  | none => true

/-- C9: `MacroBlock::verify` returns `NoJustification` exactly on a
non-genesis block without justification; otherwise it returns `Ok` exactly
when the validators list and (if present) the slot-address list verify with
length `SLOTS`, and `InvalidValidators` otherwise.  Setting the block
number to 0 always passes the justification check. -/
theorem macro_block_verify_characterization (SLOTS : Nat) (b : MacroBlock) :
    (MacroBlock.verify SLOTS b = .error .noJustification
      ↔ (1 ≤ b.header.block_number ∧ b.justification = none))
    ∧ (MacroBlock.verify SLOTS b = .ok ()
      ↔ (¬(1 ≤ b.header.block_number ∧ b.justification = none)
         ∧ validatorsOk SLOTS b = true ∧ extrinsicsSlotsOk SLOTS b = true))
    ∧ (MacroBlock.verify SLOTS b = .error .invalidValidators
      ↔ (¬(1 ≤ b.header.block_number ∧ b.justification = none)
         ∧ ¬(validatorsOk SLOTS b = true ∧ extrinsicsSlotsOk SLOTS b = true)))
    ∧ MacroBlock.verify SLOTS
        { b with header := { b.header with block_number := 0 } }
        ≠ .error .noJustification := by
  have main : ∀ bb : MacroBlock,
      (MacroBlock.verify SLOTS bb = .error .noJustification
        ↔ (1 ≤ bb.header.block_number ∧ bb.justification = none))
      ∧ (MacroBlock.verify SLOTS bb = .ok ()
        ↔ (¬(1 ≤ bb.header.block_number ∧ bb.justification = none)
           ∧ validatorsOk SLOTS bb = true ∧ extrinsicsSlotsOk SLOTS bb = true))
      ∧ (MacroBlock.verify SLOTS bb = .error .invalidValidators
        ↔ (¬(1 ≤ bb.header.block_number ∧ bb.justification = none)
           ∧ ¬(validatorsOk SLOTS bb = true
               ∧ extrinsicsSlotsOk SLOTS bb = true))) := by
    intro bb
    unfold MacroBlock.verify validatorsOk extrinsicsSlotsOk
    by_cases h1 : 1 ≤ bb.header.block_number ∧ bb.justification = none
    · rw [if_pos h1]
      cases hx : bb.extrinsics <;> simp [h1]
    · rw [if_neg h1]
      by_cases h2 : bb.header.validators.verify = true
          ∧ bb.header.validators.len = SLOTS
      · rw [if_neg (not_not_intro h2)]
        cases hx : bb.extrinsics with
        | none => simp [h1, h2]
        | some extrinsics =>
            dsimp only
            by_cases h3 : extrinsics.slot_addresses.verify = true
                ∧ extrinsics.slot_addresses.len = SLOTS
            · rw [if_neg (not_not_intro h3)]
              simp [h1, h2, h3]
            · rw [if_pos h3]
              simp [h1, h2, h3]
      · rw [if_pos h2]
        cases hx : bb.extrinsics <;> simp [h1, h2]
  refine ⟨(main b).1, (main b).2.1, (main b).2.2, ?_⟩
  intro hcontra
  have h0 := ((main _).1).mp hcontra
  simp at h0

/-- Witness instantiating the C9 characterization at a concrete
justification-free macro block at height 2: it is rejected with
`NoJustification`, but the same block at height 0 is not. -/
theorem macro_block_verify_characterization_witness :
    (MacroBlock.verify 1 { bMacroW with justification := none }
        = .error .noJustification
      ↔ (1 ≤ ({ bMacroW with justification := none } : MacroBlock).header.block_number
         ∧ ({ bMacroW with justification := none } : MacroBlock).justification = none))
    ∧ (MacroBlock.verify 1 { bMacroW with justification := none } = .ok ()
      ↔ (¬(1 ≤ ({ bMacroW with justification := none } : MacroBlock).header.block_number
            ∧ ({ bMacroW with justification := none } : MacroBlock).justification = none)
         ∧ validatorsOk 1 { bMacroW with justification := none } = true
         ∧ extrinsicsSlotsOk 1 { bMacroW with justification := none } = true))
    ∧ (MacroBlock.verify 1 { bMacroW with justification := none }
        = .error .invalidValidators
      ↔ (¬(1 ≤ ({ bMacroW with justification := none } : MacroBlock).header.block_number
            ∧ ({ bMacroW with justification := none } : MacroBlock).justification = none)
         ∧ ¬(validatorsOk 1 { bMacroW with justification := none } = true
             ∧ extrinsicsSlotsOk 1 { bMacroW with justification := none } = true)))
    ∧ MacroBlock.verify 1
        { ({ bMacroW with justification := none } : MacroBlock) with
          header := { ({ bMacroW with justification := none } : MacroBlock).header
                      with block_number := 0 } }
        ≠ .error .noJustification :=
  macro_block_verify_characterization 1 { bMacroW with justification := none }

/-! ## PBFT commit completion (`validator/src/validator.rs`,
`Validator::on_pbft_commit_complete`) -/

/-- `PbftProposal {header, view_change}` (the view-change proof abstracted
to its numeric identity). -/
structure PbftProposal where
  header : MacroHeader
  view_change : Option Nat
deriving DecidableEq, Repr

/-- `HashMap::remove`: the removed value together with the remaining map,
or `none` when the key is absent.  The `proposed_extrinsics` map is
modelled as an association list. -/
def removeEntry : List (Nat × MacroExtrinsics) → Nat →
    Option (MacroExtrinsics × List (Nat × MacroExtrinsics))
  | [], _ => none
  | (k, v) :: rest, h =>
      if k = h then some (v, rest)
      else
        match removeEntry rest h with
        | some (v2, rest2) => some (v2, (k, v) :: rest2)
        | none => none

/-- The `proposed_extrinsics` portion of `ValidatorState`, the only state
read and written by `on_pbft_commit_complete`. -/
structure PbftOrchState where
  proposed_extrinsics : List (Nat × MacroExtrinsics)
deriving DecidableEq, Repr

/-- The `assert_eq!(proposal.header.extrinsics_root, extrinsics.hash())`
failure of `on_pbft_commit_complete`. -/
inductive CommitPanic where
  | extrinsicsRootMismatch
deriving DecidableEq, Repr

/-- `Validator::on_pbft_commit_complete`: look the proposal's body up in
`proposed_extrinsics`; only when it is found is the finished macro block
assembled (justification and extrinsics both `some`) and pushed.  The
second component of the result is the block pushed to the blockchain, if
any.  `extHashFn` abstracts `MacroExtrinsics::hash`. -/
def on_pbft_commit_complete (extHashFn : MacroExtrinsics → Nat)
    (st : PbftOrchState) (hash : Nat) (proposal : PbftProposal)
    (proof : PbftProof) :
    Except CommitPanic (PbftOrchState × Option MacroBlock) :=
  match removeEntry st.proposed_extrinsics hash with
  | some (extrinsics, rest) =>
      if proposal.header.extrinsics_root = extHashFn extrinsics then
        .ok (⟨rest⟩, some { header := proposal.header,
                            justification := some proof,
                            extrinsics := some extrinsics })
      else
        .error .extrinsicsRootMismatch
  | none => .ok (st, none)

/-- C6 (counterexample): when `proposed_extrinsics` has no entry for the
committed hash, `on_pbft_commit_complete` pushes nothing at all — the
result carries no block, refuting the claim that a body-less macro block is
pushed with `body: None`. -/
theorem pbft_commit_missing_body_counterexample :
    on_pbft_commit_complete (fun _ => 0) ⟨[]⟩ 0
        { header := bMacroW.header, view_change := none } ⟨0, 0⟩
      = .ok (⟨[]⟩, none)
    ∧ Except.map (fun r => r.2.isSome)
        (on_pbft_commit_complete (fun _ => 0) ⟨[]⟩ 0
          { header := bMacroW.header, view_change := none } ⟨0, 0⟩)
      = .ok false := by
  constructor <;> rfl

/-- C6 (amended): when the commit quorum completes for a hash that has no
entry in `proposed_extrinsics`, the orchestrator pushes nothing and leaves
its state unchanged. -/
theorem pbft_commit_missing_body_pushes_nothing
    (extHashFn : MacroExtrinsics → Nat) (st : PbftOrchState) (hash : Nat)
    (proposal : PbftProposal) (proof : PbftProof)
    (hmiss : removeEntry st.proposed_extrinsics hash = none) :
    on_pbft_commit_complete extHashFn st hash proposal proof
      = .ok (st, none) := by
  unfold on_pbft_commit_complete
  rw [hmiss]

/-- A concrete macro extrinsics value for the PBFT witnesses. -/
def macroExtW : MacroExtrinsics :=
  { slot_addresses := ⟨[(1, ⟨0, 0⟩)]⟩, slash_fine := 3, slashed_set := [] }

/-- Witness for the amended C6 at a non-empty map missing the key `7`. -/
theorem pbft_commit_missing_body_pushes_nothing_witness :
    on_pbft_commit_complete (fun _ => 0) ⟨[(5, macroExtW)]⟩ 7
        { header := bMacroW.header, view_change := none } ⟨0, 0⟩
      = .ok (⟨[(5, macroExtW)]⟩, none) :=
  pbft_commit_missing_body_pushes_nothing (fun _ => 0) ⟨[(5, macroExtW)]⟩ 7
    { header := bMacroW.header, view_change := none } ⟨0, 0⟩ (by rfl)

/-! ## Orchestrator view-number tracking (`validator/src/validator.rs`)

The handlers that touch `ValidatorState::view_number` for an active
validator: `on_blockchain_event` (unconditional
`state.view_number = blockchain.next_view_number()`, clearing
`active_view_change`), the `SlotChange::ViewChange` arm of `on_slot_change`
(update only when strictly greater), and `start_view_change`
(records `ViewChange{height+1, view_number+1}`, leaving `view_number`
itself unchanged).
-/

/-- `ViewChange {block_number, new_view_number}`. -/
structure ViewChange where
  block_number : Nat
  new_view_number : Nat
deriving DecidableEq, Repr

/-- The orchestrator state consumed by the view-number handlers, together
with the observed head block number. -/
structure OrchState where
  headBlockNumber : Nat
  view_number : Nat
  active_view_change : Option ViewChange
deriving DecidableEq, Repr

/-- The events that drive the view-number handlers: a blockchain event
delivering the new head and the facade's `next_view_number()`, a completed
view change, and the block-timeout timer. -/
inductive OrchEvent where
  | chainEvent (newHeadBlockNumber nextViewNumber : Nat)
  | viewChangeComplete (vc : ViewChange)
  | blockTimeout
deriving DecidableEq, Repr

/-- One orchestrator step, for an active validator. -/
def applyEvent (st : OrchState) : OrchEvent → OrchState
  | .chainEvent newHead nv =>
      { headBlockNumber := newHead, view_number := nv,
        active_view_change := none }
  | .viewChangeComplete vc =>
      let st1 := if st.active_view_change = some vc then
        { st with active_view_change := none } else st
      if st1.view_number < vc.new_view_number then
        { st1 with view_number := vc.new_view_number }
      else st1
  | .blockTimeout =>
      if st.active_view_change.isSome then st
      else
        let vc := ViewChange.mk (st.headBlockNumber + 1) (st.view_number + 1)
        { st with active_view_change := some vc }

/-- A sequence of orchestrator steps. -/
def runEvents (st : OrchState) (evs : List OrchEvent) : OrchState :=
  evs.foldl applyEvent st

/-- The side condition of the amended C7: every chain event in the trace
keeps the head block number fixed and delivers a `next_view_number` at
least the orchestrator's current view number. -/
def okTrace (st : OrchState) : List OrchEvent → Bool
  | [] => true
  | e :: rest =>
      (match e with
        | .chainEvent newHead nv =>
            decide (newHead = st.headBlockNumber)
              && decide (st.view_number ≤ nv)
        | _ => true)
      && okTrace (applyEvent st e) rest

/-- C7 (counterexample): from a fresh state at head 5, two view changes
complete (view number 2), then a same-height chain event (a rebranch that
keeps the head block number at 5) delivers `next_view_number() = 1`;
`on_blockchain_event` overwrites the state unconditionally and the view
number decreases from 2 to 1. -/
theorem view_number_decrease_counterexample :
    (runEvents ⟨5, 0, none⟩ [.blockTimeout, .viewChangeComplete ⟨6, 1⟩,
      .blockTimeout, .viewChangeComplete ⟨6, 2⟩]).view_number = 2
    ∧ (runEvents ⟨5, 0, none⟩ [.blockTimeout, .viewChangeComplete ⟨6, 1⟩,
      .blockTimeout, .viewChangeComplete ⟨6, 2⟩,
      .chainEvent 5 1]).view_number = 1
    ∧ (runEvents ⟨5, 0, none⟩ [.blockTimeout, .viewChangeComplete ⟨6, 1⟩,
      .blockTimeout, .viewChangeComplete ⟨6, 2⟩,
      .chainEvent 5 1]).headBlockNumber = 5 := by
  decide

/-- C7 (amended): over any event trace whose chain events keep the head
block number fixed and deliver a `next_view_number` no smaller than the
current view number, the orchestrator's view number is non-decreasing
(completed view changes only raise it, and timer expiries never change
it). -/
theorem view_number_monotone_on_ok_traces (evs : List OrchEvent) :
    ∀ st : OrchState, okTrace st evs = true →
      st.view_number ≤ (runEvents st evs).view_number := by
  induction evs with
  | nil =>
      intro st h
      simp [runEvents]
  | cons e rest ih =>
      intro st h
      have hrun : runEvents st (e :: rest) = runEvents (applyEvent st e) rest :=
        rfl
      rw [hrun]
      simp only [okTrace, Bool.and_eq_true] at h
      have hstep : st.view_number ≤ (applyEvent st e).view_number := by
        cases e with
        | chainEvent newHead nv =>
            have h1 := h.1
            simp only [decide_eq_true_eq, Bool.and_eq_true] at h1
            simpa only [applyEvent] using h1.2
        | viewChangeComplete vc =>
            simp only [applyEvent]
            by_cases h1 : st.active_view_change = some vc <;>
              simp only [h1, if_pos, if_neg, if_true, if_false] <;>
              split <;> simp <;> omega
        | blockTimeout =>
            simp only [applyEvent]
            split <;> simp
      exact le_trans hstep (ih (applyEvent st e) h.2)

/-- Witness for the amended C7: a timeout, a completed view change to 1 and
a same-height chain event delivering view 3 form an admissible trace, and
the view number rises from 0 to 3. -/
theorem view_number_monotone_on_ok_traces_witness :
    okTrace ⟨5, 0, none⟩ [.blockTimeout, .viewChangeComplete ⟨6, 1⟩,
      .chainEvent 5 3] = true
    ∧ (⟨5, 0, none⟩ : OrchState).view_number ≤
      (runEvents ⟨5, 0, none⟩ [.blockTimeout, .viewChangeComplete ⟨6, 1⟩,
        .chainEvent 5 3]).view_number :=
  ⟨by decide, view_number_monotone_on_ok_traces
    [.blockTimeout, .viewChangeComplete ⟨6, 1⟩, .chainEvent 5 3]
    ⟨5, 0, none⟩ (by decide)⟩

/-! ## Scratch write transaction of `next_macro_block_proposal`
(`block-production-albatross/src/lib.rs` over `database/src/lib.rs`)

`WriteTransaction` buffers `put`/`remove` operations against a base store;
`commit(self)` applies them, `abort(self)` (and the drop on an unwinding
exit path) discards them.  The callees of `next_macro_block_proposal`
receive the transaction by mutable reference, so they can only extend its
write log — committing consumes the transaction and stays with the caller,
which always aborts. -/

/-- The persistent key-value store, keys and values abstracted to `Nat`. -/
abbrev Db := List (Nat × Nat)

/-- A buffered write: `WriteTransaction::put` or `WriteTransaction::remove`. -/
inductive TxnOp where
  | put (key value : Nat)
  | removeKey (key : Nat)
deriving DecidableEq, Repr

/-- Apply one buffered write to the store. -/
def applyOp (db : Db) : TxnOp → Db
  | .put k v => (k, v) :: db.filter (fun p => p.1 != k)
  | .removeKey k => db.filter (fun p => p.1 != k)

/-- Apply a write log in order. -/
def applyOps (db : Db) (ops : List TxnOp) : Db :=
  ops.foldl applyOp db

/-- A live write transaction: its base snapshot and its write log. -/
structure WriteTxn where
  base : Db
  log : List TxnOp
deriving DecidableEq, Repr

/-- `WriteTransaction::commit`: the buffered writes reach the store. -/
def WriteTxn.commitTxn (t : WriteTxn) : Db :=
  applyOps t.base t.log

/-- `WriteTransaction::abort` (and the implicit abort when the transaction
is dropped during unwinding): the buffered writes are discarded. -/
def WriteTxn.abortTxn (t : WriteTxn) : Db :=
  t.base

/-- `BlockProducer::next_macro_block_proposal`: open a scratch write
transaction, compute the macro header and extrinsics with it (the
reward-registry commit, account commits and slash inherents of
`next_macro_header`, and the slot computation of `next_macro_extrinsics`,
are abstract steps that may fail — a failure models a panic that unwinds
and drops the transaction), set the extrinsics root, abort the transaction
and return the proposal.  The second component of the result is the
persistent store after the call. -/
def next_macro_block_proposal {ε : Type} (db : Db)
    (headerSteps : List TxnOp → Except ε (List TxnOp))
    (extSteps : List TxnOp → Except ε (List TxnOp))
    (mkHeader : Db → List TxnOp → MacroHeader)
    (mkExtrinsics : Db → List TxnOp → MacroExtrinsics)
    (extHashFn : MacroExtrinsics → Nat) (view_change_proof : Option Nat) :
    Except ε (PbftProposal × MacroExtrinsics) × Db :=
  let txn : WriteTxn := { base := db, log := [] }
  match headerSteps txn.log with
  | .error e => (.error e, txn.abortTxn)
  | .ok log1 =>
      let txn : WriteTxn := { base := db, log := log1 }
      let header := mkHeader db txn.log
      match extSteps txn.log with
      | .error e => (.error e, txn.abortTxn)
      | .ok log2 =>
          let txn : WriteTxn := { base := db, log := log2 }
          let extrinsics := mkExtrinsics db txn.log
          let header := { header with extrinsics_root := extHashFn extrinsics }
          (.ok ({ header := header, view_change := view_change_proof },
                extrinsics),
            txn.abortTxn)

/-- C8: `next_macro_block_proposal` aborts its scratch transaction on every
exit path — error or success, whatever the header and extrinsics steps
write — so the persistent store it returns is exactly the one it was given. -/
theorem next_macro_block_proposal_preserves_db {ε : Type} (db : Db)
    (headerSteps extSteps : List TxnOp → Except ε (List TxnOp))
    (mkHeader : Db → List TxnOp → MacroHeader)
    (mkExtrinsics : Db → List TxnOp → MacroExtrinsics)
    (extHashFn : MacroExtrinsics → Nat) (view_change_proof : Option Nat) :
    (next_macro_block_proposal db headerSteps extSteps mkHeader mkExtrinsics
      extHashFn view_change_proof).2 = db := by
  unfold next_macro_block_proposal
  dsimp only
  cases h1 : headerSteps [] with
  | error e => rfl
  | ok log1 =>
      dsimp only
      cases h2 : extSteps log1 with
      | error e => rfl
      | ok log2 => rfl

end Albatross
